import Mathlib

/-!
Shallow embedding of the clipboard-QR extension's history core
(`clipboard-qr-extension/shared.js` and its popup/background callers):
text normalization, the bounded dedup history queue, the serial write
queue, the quota-aware persist loop, and the initial-state reconciler.
JavaScript values reaching these functions are modelled by `JSVal`;
machine strings by Lean `String`; the `limit` number by `Int`.
-/

/-- Model of the JavaScript values that can reach the shared utilities:
`null`, `undefined`, strings, (integer) numbers, booleans and arrays. -/
inductive JSVal where
  | null
  | undefined
  | str (s : String)
  | num (n : Int)
  | bool (b : Bool)
  | arr (elems : List JSVal)

/-- JS `String.prototype.trim` whitespace test (model: the common ASCII
whitespace characters). -/
def isJsWhitespace (c : Char) : Bool :=
  c == ' ' || c == '\t' || c == '\n' || c == '\r'

/-- Characters of a string with leading and trailing whitespace removed. -/
def trimChars (cs : List Char) : List Char :=
  List.rdropWhile isJsWhitespace (cs.dropWhile isJsWhitespace)

/-- JS `String.prototype.trim` on the model. -/
def jsTrim (s : String) : String :=
  String.mk (trimChars s.data)

mutual
/-- JS `Array.prototype.toString` = comma join of the elements. -/
def jsArrJoin : List JSVal → String
  | [] => ""
  | [v] => jsElemString v
  | v :: rest => jsElemString v ++ "," ++ jsArrJoin rest
termination_by xs => sizeOf xs

/-- Element stringification inside `Array.prototype.join`: `null` and
`undefined` become the empty string, other elements their `ToString`. -/
def jsElemString : JSVal → String
  | JSVal.null => ""
  | JSVal.undefined => ""
  | JSVal.str s => s
  | JSVal.num n => toString n
  | JSVal.bool b => cond b "true" "false"
  | JSVal.arr xs => jsArrJoin xs
termination_by v => sizeOf v
end

/-- JS `ToString` coercion (`value.toString()`), translated from the
runtime semantics the source relies on in `trimmedText`. -/
def jsToString : JSVal → String
  | JSVal.null => "null"
  | JSVal.undefined => "undefined"
  | JSVal.str s => s
  | JSVal.num n => toString n
  | JSVal.bool b => cond b "true" "false"
  | JSVal.arr xs => jsArrJoin xs

/-- `shared.js` line 10: `trimmedText(text) = (text ?? "").toString().trim()`. -/
def trimmedText (text : JSVal) : String :=
  match text with
  | JSVal.null => jsTrim ""
  | JSVal.undefined => jsTrim ""
  | v => jsTrim (jsToString v)

/-- `shared.js` line 14: `coerceTextArray` — non-arrays map to `[]`,
arrays are trimmed elementwise and falsy (empty) entries dropped. -/
def coerceTextArray : JSVal → List String
  | JSVal.arr xs => (xs.map trimmedText).filter (fun s => s != "")
  | _ => []

/-- Body of `shared.js updateHistory` after the input coercions (lines
23–31): early return on empty text, dedup-filter, push, head trim via
`splice(0, filtered.length - limit)` (JS `splice` clamps the delete
count to the array length, hence `Int.toNat` on the drop count). -/
def updateHistoryL (queue : List String) (t : String) (limit : Int) : List String :=
  if t = "" then queue
  else
    let filtered := (queue.filter (fun h => h != t)) ++ [t]
    if limit < (filtered.length : Int) then
      filtered.drop ((filtered.length : Int) - limit).toNat
    else filtered

/-- `shared.js` line 20: `updateHistory(history, text, limit)`. -/
def updateHistory (history text : JSVal) (limit : Int) : List String :=
  updateHistoryL (coerceTextArray history) (trimmedText text) limit

/-- Re-embedding of a computed string list as the JS array value it is at
runtime (used where the source passes one function's result to another). -/
def strArr (xs : List String) : JSVal :=
  JSVal.arr (xs.map JSVal.str)

/-- Input record of `computeInitialState` (`shared.js` of `part_004`,
lines 111–118): the five destructured options with their JS defaults. -/
structure ReconcileOpts where
  lastClipboard : JSVal := JSVal.str ""
  currentText : JSVal := JSVal.str ""
  newClipboard : JSVal := JSVal.str ""
  history : JSVal := JSVal.arr []
  limit : Int := 10

/-- Result record of `computeInitialState`. -/
structure ReconcileResult where
  displayText : String
  newHistory : List String
  newLastClipboard : String
  newCurrentText : String
  clipboardChanged : Bool
deriving DecidableEq, Repr

/-- `computeInitialState` (`part_004` lines 111–165): trims the three
text inputs, sanitizes the history, then takes case 1 (new clipboard
content), case 2 (clipboard unchanged, saved text shown) or case 3
(fallback to the most recent history entry). -/
def computeInitialState (opts : ReconcileOpts) : ReconcileResult :=
  let trimmedLastClipboard := trimmedText opts.lastClipboard
  let trimmedCurrentText := trimmedText opts.currentText
  let trimmedNewClipboard := trimmedText opts.newClipboard
  let cleanHistory := coerceTextArray opts.history
  if trimmedNewClipboard ≠ "" ∧ trimmedNewClipboard ≠ trimmedLastClipboard then
    let updatedHistory :=
      if trimmedCurrentText ≠ "" ∧ trimmedCurrentText ≠ trimmedLastClipboard then
        updateHistory (strArr cleanHistory) (JSVal.str trimmedCurrentText) opts.limit
      else cleanHistory
    let updatedHistory2 :=
      updateHistory (strArr updatedHistory) (JSVal.str trimmedNewClipboard) opts.limit
    { displayText := trimmedNewClipboard
      newHistory := updatedHistory2
      newLastClipboard := trimmedNewClipboard
      newCurrentText := trimmedNewClipboard
      clipboardChanged := true }
  else if trimmedCurrentText ≠ "" then
    { displayText := trimmedCurrentText
      newHistory := cleanHistory
      newLastClipboard := trimmedLastClipboard
      newCurrentText := trimmedCurrentText
      clipboardChanged := false }
  else
    let fallback := cleanHistory.getLastD ""
    { displayText := fallback
      newHistory := cleanHistory
      newLastClipboard := trimmedLastClipboard
      newCurrentText := fallback
      clipboardChanged := false }

/-- History capacity limit of the popup and background scripts. -/
def HISTORY_LIMIT : Nat := 10

/-- Outcome of one `storageSet` attempt, as the persist loop classifies it:
success, a failure that `isQuotaError` matches, or any other failure. -/
inductive WriteOutcome where
  | success
  | quotaError
  | otherError
deriving DecidableEq, Repr

/-- Observable outcome of one `saveHistory` / `pushToHistory` run:
the value finally written to the store (if any), the function's return
value (`none` models JS `undefined`), whether the error status banner was
shown, whether the eviction notice was shown, and how many `storageSet`
attempts were made. -/
structure SaveOutcome where
  stored : Option (List String)
  returned : Option (List String)
  errorShown : Bool
  evictNotice : Bool
  attempts : Nat
deriving DecidableEq, Repr

/-- The `while (true) { try { await storageSet(...) } catch ... }` loop
shared by `popup.js saveHistory` (lines 63–79, `failReturn = none`: the
JS function returns `undefined` on the abort path) and `part_002
pushToHistory` (lines 122–141, `failReturn = some existingQueue`). The
store is modelled as a function from the candidate queue to the
classified outcome of that write; the queue strictly shrinks on every
retry, so every attempt of one run probes the store at a fresh queue and
an arbitrary per-attempt outcome sequence is expressible. On a
quota-classified failure with more than one element the head is dropped
(`slice(1)`) and the write retried; otherwise the loop aborts, shows the
error status and returns `failReturn`. -/
def persistLoop (store : List String → WriteOutcome)
    (failReturn : Option (List String)) :
    List String → Bool → SaveOutcome
  | q, evicted =>
    match store q with
    | WriteOutcome.success =>
        { stored := some q, returned := some q, errorShown := false
          evictNotice := evicted, attempts := 1 }
    | WriteOutcome.quotaError =>
        match q with
        | _x :: y :: rest =>
            let r := persistLoop store failReturn (y :: rest) true
            { r with attempts := r.attempts + 1 }
        | _ =>
            { stored := none, returned := failReturn, errorShown := true
              evictNotice := false, attempts := 1 }
    | WriteOutcome.otherError =>
        { stored := none, returned := failReturn, errorShown := true
          evictNotice := false, attempts := 1 }

/-- `popup.js saveHistory` (lines 54–86): coerce, pre-trim to the last
`HISTORY_LIMIT` entries (`slice(-HISTORY_LIMIT)`), then run the quota
eviction loop; the abort path returns `undefined` (`none`). -/
def saveHistory (store : List String → WriteOutcome) (history : JSVal) :
    SaveOutcome :=
  let queue := coerceTextArray history
  let finalQueue :=
    if queue.length > HISTORY_LIMIT then queue.drop (queue.length - HISTORY_LIMIT)
    else queue
  persistLoop store none finalQueue false

/-- `part_002 pushToHistory` (lines 107–149) with the storage read
abstracted into the `existingQueue` argument: empty text returns the
existing queue without an attempt; otherwise dedup, append, pre-trim to
the limit (`slice(length - HISTORY_LIMIT)`), then run the same eviction
loop, whose abort path returns `existingQueue`. -/
def pushToHistory (store : List String → WriteOutcome) (text : JSVal)
    (existingQueue : List String) : SaveOutcome :=
  let trimmed := trimmedText text
  if trimmed = "" then
    { stored := none, returned := some existingQueue, errorShown := false
      evictNotice := false, attempts := 0 }
  else
    let nextQueue := (existingQueue.filter (fun h => h != trimmed)) ++ [trimmed]
    let boundedQueue :=
      if nextQueue.length > HISTORY_LIMIT then
        nextQueue.drop (nextQueue.length - HISTORY_LIMIT)
      else nextQueue
    persistLoop store (some existingQueue) boundedQueue false

/-- Settlement outcome of a promise in the serial-queue model. -/
inductive TOutcome where
  | ok
  | err
deriving DecidableEq, Repr

/-- An async task submitted to the serial queue: how long it runs (in
abstract time units) and whether it rejects. -/
structure PTask where
  latency : Nat
  fails : Bool
deriving DecidableEq, Repr

/-- A settled promise: when it settled and with which outcome. -/
structure Settled where
  time : Nat
  outcome : TOutcome
deriving DecidableEq, Repr

/-- Invoking `run = () => Promise.resolve().then(task)` at a given start
time: the resulting promise settles `latency` later, rejected iff the
task fails. -/
def runTask (startTime : Nat) (t : PTask) : Settled :=
  { time := startTime + t.latency
    outcome := if t.fails then TOutcome.err else TOutcome.ok }

/-- `chain = chain.then(run, run)` (`shared.js` line 39): `run` is
installed as both the fulfillment and the rejection handler, so the next
task starts exactly when the previous chain promise settles, whatever
its outcome was. -/
def chainStep (prev : Settled) (t : PTask) : Settled :=
  runTask prev.time t

/-- Execution event of one task: when it started and how its promise
settled. -/
structure TaskEvent where
  start : Nat
  settled : Settled
deriving DecidableEq, Repr

/-- Trace of a task list run through the chain, in enqueue order. -/
def serialTrace (chain : Settled) : List PTask → List TaskEvent
  | [] => []
  | t :: rest =>
      let s := chainStep chain t
      { start := chain.time, settled := s } :: serialTrace s rest

/-- `shared.js` line 35 `createSerialQueue`: the chain pointer starts as
`Promise.resolve()` (settled fulfilled at time 0); enqueuing the given
tasks produces this execution trace. -/
def createSerialQueue (ts : List PTask) : List TaskEvent :=
  serialTrace { time := 0, outcome := TOutcome.ok } ts

example : trimmedText (JSVal.str "  item1 ") = "item1" := by decide
example : trimmedText JSVal.null = "" := by decide
example : trimmedText (JSVal.num 42) = "42" := by decide
example : coerceTextArray (strArr ["a", " b ", ""]) = ["a", "b"] := by decide
example : updateHistory (strArr ["item1"]) (JSVal.str "item2") 10 = ["item1", "item2"] := by decide
example : updateHistory (strArr ["item1", "item2"]) (JSVal.str "item1") 10 = ["item2", "item1"] := by decide
example : updateHistory (strArr ["a"]) (JSVal.str "   ") 10 = ["a"] := by decide
example : updateHistory (strArr ["1", "2", "3"]) (JSVal.str "4") 3 = ["2", "3", "4"] := by decide
example : updateHistory (strArr ["1", "2", "3"]) (JSVal.str "4") (-2) = [] := by decide

/-! Helper lemmas about trimming. -/

/-- A list whose `dropWhile`-fixed extension it is stays `dropWhile`-fixed. -/
theorem dropWhile_fix_append {α : Type} (p : α → Bool) (l t : List α)
    (h : (l ++ t).dropWhile p = l ++ t) : l.dropWhile p = l := by
  cases l with
  | nil => rfl
  | cons a l =>
    rw [List.cons_append, List.dropWhile_cons] at h
    by_cases hp : p a = true
    · rw [if_pos hp] at h
      have h1 : ((l ++ t).dropWhile p).length ≤ (l ++ t).length := by
        conv_rhs => rw [← List.takeWhile_append_dropWhile p (l ++ t)]
        rw [List.length_append]
        omega
      rw [h] at h1
      simp only [List.length_cons] at h1
      omega
    · rw [List.dropWhile_cons, if_neg hp]

/-- Trimming character lists is idempotent. -/
theorem trimChars_idem (cs : List Char) : trimChars (trimChars cs) = trimChars cs := by
  unfold trimChars
  obtain ⟨t, ht⟩ := List.rdropWhile_prefix isJsWhitespace (cs.dropWhile isJsWhitespace)
  have hfix : (List.rdropWhile isJsWhitespace (cs.dropWhile isJsWhitespace)).dropWhile
      isJsWhitespace = List.rdropWhile isJsWhitespace (cs.dropWhile isJsWhitespace) := by
    apply dropWhile_fix_append isJsWhitespace _ t
    rw [ht]
    exact List.dropWhile_idempotent isJsWhitespace cs
  rw [hfix, List.rdropWhile_idempotent]

/-- JS `trim` is idempotent. -/
theorem jsTrim_idem (s : String) : jsTrim (jsTrim s) = jsTrim s :=
  congrArg String.mk (trimChars_idem s.data)

/-- Every value of `trimmedText` is a `jsTrim` fixed point. -/
theorem trimmedText_trimFix (v : JSVal) : jsTrim (trimmedText v) = trimmedText v := by
  cases v <;> exact jsTrim_idem _

/-- The trimmed characters sit inside the original string between a
whitespace-only front part and a whitespace-only back part. -/
theorem trimChars_decomp (cs : List Char) :
    ∃ front back : List Char, cs = front ++ trimChars cs ++ back ∧
      (∀ c ∈ front, isJsWhitespace c = true) ∧ (∀ c ∈ back, isJsWhitespace c = true) := by
  refine ⟨cs.takeWhile isJsWhitespace,
    ((cs.dropWhile isJsWhitespace).reverse.takeWhile isJsWhitespace).reverse, ?_, ?_, ?_⟩
  · conv_lhs => rw [← List.takeWhile_append_dropWhile isJsWhitespace cs]
    rw [List.append_assoc]
    congr 1
    conv_lhs => rw [← List.reverse_reverse (cs.dropWhile isJsWhitespace),
      ← List.takeWhile_append_dropWhile isJsWhitespace (cs.dropWhile isJsWhitespace).reverse]
    rw [List.reverse_append]
    rfl
  · exact fun c hc => List.mem_takeWhile_imp hc
  · intro c hc
    rw [List.mem_reverse] at hc
    exact List.mem_takeWhile_imp hc

/-- The first trimmed character is not whitespace. -/
theorem trimChars_head (cs : List Char) (c : Char) (h : (trimChars cs).head? = some c) :
    isJsWhitespace c = false := by
  have hne : trimChars cs ≠ [] := by
    intro he
    rw [he] at h
    simp at h
  obtain ⟨t, ht⟩ := List.rdropWhile_prefix isJsWhitespace (cs.dropWhile isJsWhitespace)
  have hd : (cs.dropWhile isJsWhitespace).head? = some c := by
    rw [← ht,
      List.head?_append_of_ne_nil (List.rdropWhile isJsWhitespace
        (cs.dropWhile isJsWhitespace)) hne]
    exact h
  have hdne : cs.dropWhile isJsWhitespace ≠ [] := by
    intro he
    rw [he] at hd
    simp at hd
  rw [List.head?_eq_head hdne, Option.some.injEq] at hd
  rw [← hd]
  exact List.head_dropWhile_not isJsWhitespace cs hdne

/-- The last trimmed character is not whitespace. -/
theorem trimChars_getLast (cs : List Char) (c : Char)
    (h : (trimChars cs).getLast? = some c) : isJsWhitespace c = false := by
  have hne : trimChars cs ≠ [] := by
    intro he
    rw [he] at h
    simp at h
  rw [List.getLast?_eq_getLast_of_ne_nil hne, Option.some.injEq] at h
  rw [← h]
  exact eq_false_of_ne_true
    (List.rdropWhile_last_not isJsWhitespace (cs.dropWhile isJsWhitespace) hne)

/-! Helper lemmas about clean (trimmed, non-empty) string lists. -/

/-- Every element is non-empty and already trimmed — the invariant the
source maintains for every history queue after `coerceTextArray`. -/
def CleanList (xs : List String) : Prop :=
  ∀ s ∈ xs, s ≠ "" ∧ jsTrim s = s

/-- `coerceTextArray` always yields a clean list. -/
theorem coerce_clean (v : JSVal) : CleanList (coerceTextArray v) := by
  cases v with
  | arr xs =>
      intro s hs
      simp only [coerceTextArray, List.mem_filter, List.mem_map] at hs
      obtain ⟨⟨x, _hx, rfl⟩, hne⟩ := hs
      exact ⟨by simpa using hne, trimmedText_trimFix x⟩
  | null => intro s hs; simp [coerceTextArray] at hs
  | undefined => intro s hs; simp [coerceTextArray] at hs
  | str a => intro s hs; simp [coerceTextArray] at hs
  | num n => intro s hs; simp [coerceTextArray] at hs
  | bool b => intro s hs; simp [coerceTextArray] at hs

/-- Passing a clean list back through the array coercion is the identity
(this is what happens when one source function feeds another). -/
theorem coerce_strArr (xs : List String) (h : CleanList xs) :
    coerceTextArray (strArr xs) = xs := by
  have hmap : (xs.map JSVal.str).map trimmedText = xs := by
    rw [List.map_map]
    have h2 : xs.map (trimmedText ∘ JSVal.str) = xs.map id :=
      List.map_congr_left (fun s hs => (h s hs).2)
    simpa using h2
  simp only [coerceTextArray, strArr, hmap]
  exact List.filter_eq_self.mpr (fun s hs => by simpa using (h s hs).1)

/-- `trimmedText` on a string value is plain `jsTrim`. -/
theorem trimmedText_str (s : String) : trimmedText (JSVal.str s) = jsTrim s := rfl

/-- Members of `updateHistoryL` come from the queue or are the new text. -/
theorem updateHistoryL_mem (q : List String) (t : String) (limit : Int) (s : String)
    (hs : s ∈ updateHistoryL q t limit) : s ∈ q ∨ s = t := by
  simp only [updateHistoryL] at hs
  by_cases h0 : t = ""
  · rw [if_pos h0] at hs
    exact Or.inl hs
  · rw [if_neg h0] at hs
    have hmem : s ∈ (q.filter (fun h => h != t)) ++ [t] := by
      by_cases hlt : limit < (((q.filter (fun h => h != t)) ++ [t]).length : Int)
      · rw [if_pos hlt] at hs
        exact List.mem_of_mem_drop hs
      · rwa [if_neg hlt] at hs
    rcases List.mem_append.mp hmem with h | h
    · exact Or.inl (List.mem_of_mem_filter h)
    · simp only [List.mem_singleton] at h
      exact Or.inr h

/-- `updateHistoryL` keeps the clean-list invariant. -/
theorem updateHistoryL_clean (q : List String) (t : String) (limit : Int)
    (hq : CleanList q) (ht : jsTrim t = t) : CleanList (updateHistoryL q t limit) := by
  by_cases h0 : t = ""
  · intro s hs
    simp only [updateHistoryL, if_pos h0] at hs
    exact hq s hs
  · intro s hs
    rcases updateHistoryL_mem q t limit s hs with h | rfl
    · exact hq s h
    · exact ⟨h0, ht⟩

/-- Feeding a clean queue and an already-trimmed text through the full
`updateHistory` wrapper is the same as running its body directly. -/
theorem updateHistory_strArr (q : List String) (t : String) (limit : Int)
    (hq : CleanList q) (ht : jsTrim t = t) :
    updateHistory (strArr q) (JSVal.str t) limit = updateHistoryL q t limit := by
  unfold updateHistory
  rw [coerce_strArr q hq]
  rw [show trimmedText (JSVal.str t) = t from ht]

/-- Shape of `updateHistoryL` for non-empty text: with a positive limit
the result is a dedup-filtered front part followed by the new text, with
total length within the limit; with a non-positive limit it is empty. -/
theorem updateHistoryL_decomp (q : List String) (t : String) (limit : Int) (ht : t ≠ "") :
    (1 ≤ limit → ∃ F : List String, updateHistoryL q t limit = F ++ [t] ∧
      (∀ s ∈ F, s ≠ t) ∧ ((F.length : Int) + 1 ≤ limit)) ∧
    (limit ≤ 0 → updateHistoryL q t limit = []) := by
  have hfm : ∀ s ∈ q.filter (fun h => h != t), s ≠ t := by
    intro s hs
    simpa using List.of_mem_filter hs
  simp only [updateHistoryL, if_neg ht]
  by_cases hlt : limit < (((q.filter (fun h => h != t)) ++ [t]).length : Int)
  · rw [if_pos hlt]
    rw [List.length_append, List.length_singleton] at hlt
    constructor
    · intro h1
      refine ⟨(q.filter (fun h => h != t)).drop
        (((((q.filter (fun h => h != t)) ++ [t]).length : Int) - limit).toNat), ?_, ?_, ?_⟩
      · rw [List.drop_append_of_le_length]
        rw [List.length_append, List.length_singleton]
        omega
      · exact fun s hs => hfm s (List.mem_of_mem_drop hs)
      · rw [List.length_drop, List.length_append, List.length_singleton]
        omega
    · intro h0
      apply List.drop_eq_nil_of_le
      rw [List.length_append, List.length_singleton]
      omega
  · rw [if_neg hlt]
    rw [List.length_append, List.length_singleton] at hlt
    constructor
    · intro _h1
      exact ⟨q.filter (fun h => h != t), rfl, hfm, by omega⟩
    · intro h0
      omega

/-- Re-upserting the same text is a no-op on the queue body. -/
theorem updateHistoryL_idem (q : List String) (t : String) (limit : Int) :
    updateHistoryL (updateHistoryL q t limit) t limit = updateHistoryL q t limit := by
  by_cases h0 : t = ""
  · simp [updateHistoryL, h0]
  · rcases le_or_lt limit 0 with hle | hpos
    · rw [(updateHistoryL_decomp q t limit h0).2 hle]
      exact (updateHistoryL_decomp [] t limit h0).2 hle
    · have h1 : (1 : Int) ≤ limit := by omega
      obtain ⟨F, hR, hF, hlen⟩ := (updateHistoryL_decomp q t limit h0).1 h1
      rw [hR]
      have hfilter : (F ++ [t]).filter (fun h => h != t) = F := by
        rw [List.filter_append]
        have hFs : F.filter (fun h => h != t) = F :=
          List.filter_eq_self.mpr (fun s hs => by simpa using hF s hs)
        simp [hFs]
      have hnlt : ¬ (limit < (((F ++ [t]).length : Int))) := by
        rw [List.length_append, List.length_singleton]
        push_cast
        omega
      simp only [updateHistoryL, if_neg h0, hfilter, if_neg hnlt]

/-- C7: for all queues `q`, texts `t` and limits `n`,
`upsert(upsert(q, t, n), t, n) = upsert(q, t, n)` — re-inserting the same
text through `updateHistory` is idempotent. -/
theorem updateHistory_idem (q t : JSVal) (n : Int) :
    updateHistory (strArr (updateHistory q t n)) t n = updateHistory q t n := by
  have hq : CleanList (coerceTextArray q) := coerce_clean q
  have ht : jsTrim (trimmedText t) = trimmedText t := trimmedText_trimFix t
  have hres : CleanList (updateHistory q t n) :=
    updateHistoryL_clean (coerceTextArray q) (trimmedText t) n hq ht
  show updateHistoryL (coerceTextArray (strArr (updateHistory q t n))) (trimmedText t) n
    = updateHistory q t n
  rw [coerce_strArr (updateHistory q t n) hres]
  exact updateHistoryL_idem (coerceTextArray q) (trimmedText t) n

/-- C6 counterexample: with empty text `updateHistory` returns the queue
without trimming it to the limit (`["a", "b"]` of length 2 for limit 1),
and with a negative limit the empty result still has length above `n`. -/
theorem updateHistory_bound_counterexample :
    updateHistory (strArr ["a", "b"]) (JSVal.str "") 1 = ["a", "b"] ∧
    ¬ ((updateHistory (strArr ["a", "b"]) (JSVal.str "") 1).length ≤ 1) ∧
    updateHistory (strArr []) (JSVal.str "x") (-1) = [] ∧
    ¬ (((updateHistory (strArr []) (JSVal.str "x") (-1)).length : Int) ≤ -1) := by
  decide

/-- C6 amended: `updateHistory` never holds more than one occurrence of
the normalized text; when the normalized text is non-empty the length is
at most `max n 0`; when it is empty the sanitized queue is returned
unchanged (and may exceed the limit). -/
theorem updateHistory_dedup_bounded (q t : JSVal) (n : Int) :
    (updateHistory q t n).count (trimmedText t) ≤ 1 ∧
    (trimmedText t ≠ "" → ((updateHistory q t n).length : Int) ≤ max n 0) ∧
    (trimmedText t = "" → updateHistory q t n = coerceTextArray q) := by
  have hq := coerce_clean q
  by_cases h0 : trimmedText t = ""
  · refine ⟨?_, fun hne => absurd h0 hne, fun _ => ?_⟩
    · have he : updateHistory q t n = coerceTextArray q := by
        simp [updateHistory, updateHistoryL, h0]
      rw [he, h0]
      have hnm : "" ∉ coerceTextArray q := fun hc => (hq "" hc).1 rfl
      simp [List.count_eq_zero.mpr hnm]
    · simp [updateHistory, updateHistoryL, h0]
  · rcases le_or_lt n 0 with hle | hpos
    · have hz := (updateHistoryL_decomp (coerceTextArray q) (trimmedText t) n h0).2 hle
      refine ⟨?_, fun _ => ?_, fun he => absurd he h0⟩
      · show (updateHistoryL (coerceTextArray q) (trimmedText t) n).count (trimmedText t) ≤ 1
        rw [hz]
        simp
      · show ((updateHistoryL (coerceTextArray q) (trimmedText t) n).length : Int) ≤ max n 0
        rw [hz]
        simp
    · have h1 : (1 : Int) ≤ n := by omega
      obtain ⟨F, hR, hF, hlen⟩ :=
        (updateHistoryL_decomp (coerceTextArray q) (trimmedText t) n h0).1 h1
      refine ⟨?_, fun _ => ?_, fun he => absurd he h0⟩
      · show (updateHistoryL (coerceTextArray q) (trimmedText t) n).count (trimmedText t) ≤ 1
        rw [hR, List.count_append]
        have hcF : F.count (trimmedText t) = 0 :=
          List.count_eq_zero.mpr (fun hc => (hF _ hc) rfl)
        simp [hcF]
      · show ((updateHistoryL (coerceTextArray q) (trimmedText t) n).length : Int) ≤ max n 0
        rw [hR, List.length_append, List.length_singleton]
        push_cast
        omega

/-- C6 witness: a concrete run of the amended statement with re-inserted
untrimmed text and the default limit. -/
theorem updateHistory_dedup_bounded_witness :
    (updateHistory (strArr ["x", "y"]) (JSVal.str " y ") 10).count
      (trimmedText (JSVal.str " y ")) ≤ 1 ∧
    ((updateHistory (strArr ["x", "y"]) (JSVal.str " y ") 10).length : Int) ≤ max 10 0 := by
  have h := updateHistory_dedup_bounded (strArr ["x", "y"]) (JSVal.str " y ") 10
  exact ⟨h.1, h.2.1 (by decide)⟩

/-- C9 counterexample: with limit 0 and empty text the early return hands
back the non-empty queue, so `limit <= 0` is not an always-empty queue. -/
theorem updateHistory_nonpos_counterexample :
    updateHistory (strArr ["a"]) (JSVal.str "") 0 = ["a"] ∧
    updateHistory (strArr ["a"]) (JSVal.str "") 0 ≠ [] := by
  decide

/-- C9 amended: for `n ≤ 0` the upsert returns the empty queue whenever
the normalized text is non-empty; with empty normalized text the early
return yields the sanitized queue unchanged. The head-trim never crashes:
`updateHistory` is a total function for every queue and limit. -/
theorem updateHistory_limit_nonpos (q t : JSVal) (n : Int) (hn : n ≤ 0) :
    (trimmedText t ≠ "" → updateHistory q t n = []) ∧
    (trimmedText t = "" → updateHistory q t n = coerceTextArray q) := by
  constructor
  · intro h0
    exact (updateHistoryL_decomp (coerceTextArray q) (trimmedText t) n h0).2 hn
  · intro h0
    simp [updateHistory, updateHistoryL, h0]

/-- C9 witness: limit 0 on a queue far over the limit empties it. -/
theorem updateHistory_limit_nonpos_witness :
    updateHistory (strArr ["a", "b", "c"]) (JSVal.str "zz") 0 = [] :=
  (updateHistory_limit_nonpos (strArr ["a", "b", "c"]) (JSVal.str "zz") 0
    (by decide)).1 (by decide)

/-- C1: when the normalized new clipboard is non-empty and differs from
the normalized last clipboard, and the normalized current text is
non-empty and also differs from the last clipboard, the reconciler
upserts the current text and then the new clipboard into the sanitized
history and reports the new clipboard as display text, snapshot and
current text with `clipboardChanged = true`. -/
theorem computeInitialState_newcopy_edit (opts : ReconcileOpts)
    (h1 : trimmedText opts.newClipboard ≠ "")
    (h2 : trimmedText opts.newClipboard ≠ trimmedText opts.lastClipboard)
    (h3 : trimmedText opts.currentText ≠ "")
    (h4 : trimmedText opts.currentText ≠ trimmedText opts.lastClipboard) :
    computeInitialState opts =
      { displayText := trimmedText opts.newClipboard
        newHistory := updateHistoryL
          (updateHistoryL (coerceTextArray opts.history) (trimmedText opts.currentText)
            opts.limit)
          (trimmedText opts.newClipboard) opts.limit
        newLastClipboard := trimmedText opts.newClipboard
        newCurrentText := trimmedText opts.newClipboard
        clipboardChanged := true } := by
  have hq := coerce_clean opts.history
  have hcur := trimmedText_trimFix opts.currentText
  have hnew := trimmedText_trimFix opts.newClipboard
  have hmid : CleanList (updateHistoryL (coerceTextArray opts.history)
      (trimmedText opts.currentText) opts.limit) :=
    updateHistoryL_clean _ _ _ hq hcur
  simp only [computeInitialState, if_pos (And.intro h1 h2), if_pos (And.intro h3 h4)]
  rw [updateHistory_strArr _ _ _ hq hcur, updateHistory_strArr _ _ _ hmid hnew]

/-- C1 witness: reconciler scenario B — the edit `"item 12"` is preserved
before the new copy `"item2"`. -/
theorem computeInitialState_newcopy_edit_witness :
    computeInitialState
      { lastClipboard := JSVal.str "item1"
        currentText := JSVal.str "item 12"
        newClipboard := JSVal.str "item2"
        history := strArr ["item1"]
        limit := 10 } =
      { displayText := "item2"
        newHistory := ["item1", "item 12", "item2"]
        newLastClipboard := "item2"
        newCurrentText := "item2"
        clipboardChanged := true } := by
  have h := computeInitialState_newcopy_edit
    { lastClipboard := JSVal.str "item1"
      currentText := JSVal.str "item 12"
      newClipboard := JSVal.str "item2"
      history := strArr ["item1"]
      limit := 10 }
    (by decide) (by decide) (by decide) (by decide)
  rw [h]
  decide

/-- C2 counterexample: with a raw `lastClipboard` of `" item1 "` and raw
history `[" a "]` the preconditions of the claim hold, yet the returned
`newLastClipboard` is the trimmed `"item1"` (not the raw input) and the
returned history is the sanitized `["a"]` (not the raw input). -/
theorem computeInitialState_unchanged_counterexample :
    trimmedText (JSVal.str "item1") = trimmedText (JSVal.str " item1 ") ∧
    trimmedText (JSVal.str "x") ≠ "" ∧
    (computeInitialState
      { lastClipboard := JSVal.str " item1 "
        currentText := JSVal.str "x"
        newClipboard := JSVal.str "item1"
        history := strArr [" a "]
        limit := 10 }).newLastClipboard ≠ " item1 " ∧
    (computeInitialState
      { lastClipboard := JSVal.str " item1 "
        currentText := JSVal.str "x"
        newClipboard := JSVal.str "item1"
        history := strArr [" a "]
        limit := 10 }).newHistory ≠ [" a "] := by
  decide

/-- C2 amended: when the normalized new clipboard is empty or equals the
normalized last clipboard and the normalized current text is non-empty,
the reconciler shows the normalized current text, leaves the sanitized
history untouched, keeps the *normalized* last clipboard as the snapshot
and reports `clipboardChanged = false`. -/
theorem computeInitialState_unchanged (opts : ReconcileOpts)
    (h1 : trimmedText opts.newClipboard = "" ∨
      trimmedText opts.newClipboard = trimmedText opts.lastClipboard)
    (h2 : trimmedText opts.currentText ≠ "") :
    computeInitialState opts =
      { displayText := trimmedText opts.currentText
        newHistory := coerceTextArray opts.history
        newLastClipboard := trimmedText opts.lastClipboard
        newCurrentText := trimmedText opts.currentText
        clipboardChanged := false } := by
  have hnc : ¬ (trimmedText opts.newClipboard ≠ "" ∧
      trimmedText opts.newClipboard ≠ trimmedText opts.lastClipboard) := by
    rcases h1 with h | h
    · exact fun hc => hc.1 h
    · exact fun hc => hc.2 h
  simp only [computeInitialState, if_neg hnc, if_pos h2]

/-- C2 witness: reconciler scenario C — clipboard unchanged, the edit
`"item 12"` is shown and nothing else moves. -/
theorem computeInitialState_unchanged_witness :
    computeInitialState
      { lastClipboard := JSVal.str "item1"
        currentText := JSVal.str "item 12"
        newClipboard := JSVal.str "item1"
        history := strArr ["item1", "item 12"]
        limit := 10 } =
      { displayText := "item 12"
        newHistory := ["item1", "item 12"]
        newLastClipboard := "item1"
        newCurrentText := "item 12"
        clipboardChanged := false } := by
  have h := computeInitialState_unchanged
    { lastClipboard := JSVal.str "item1"
      currentText := JSVal.str "item 12"
      newClipboard := JSVal.str "item1"
      history := strArr ["item1", "item 12"]
      limit := 10 }
    (Or.inr (by decide)) (by decide)
  rw [h]
  decide

/-- C10: every string field of the reconciler result is already trimmed,
the returned history is a clean (trimmed, non-empty) list, and in the
clipboard-unchanged cases the snapshot is the trimmed raw lastClipboard
while the history is the sanitized raw history. -/
theorem computeInitialState_normalized (opts : ReconcileOpts) :
    jsTrim (computeInitialState opts).displayText = (computeInitialState opts).displayText ∧
    jsTrim (computeInitialState opts).newLastClipboard
      = (computeInitialState opts).newLastClipboard ∧
    jsTrim (computeInitialState opts).newCurrentText
      = (computeInitialState opts).newCurrentText ∧
    CleanList (computeInitialState opts).newHistory ∧
    ((trimmedText opts.newClipboard = "" ∨
        trimmedText opts.newClipboard = trimmedText opts.lastClipboard) →
      (computeInitialState opts).newLastClipboard = trimmedText opts.lastClipboard ∧
      (computeInitialState opts).newHistory = coerceTextArray opts.history) := by
  have hq := coerce_clean opts.history
  have hcur := trimmedText_trimFix opts.currentText
  have hnew := trimmedText_trimFix opts.newClipboard
  have hlast := trimmedText_trimFix opts.lastClipboard
  by_cases hc1 : trimmedText opts.newClipboard ≠ "" ∧
      trimmedText opts.newClipboard ≠ trimmedText opts.lastClipboard
  · have hun : ¬ (trimmedText opts.newClipboard = "" ∨
        trimmedText opts.newClipboard = trimmedText opts.lastClipboard) := by
      rintro (h | h)
      · exact hc1.1 h
      · exact hc1.2 h
    by_cases hmid : trimmedText opts.currentText ≠ "" ∧
        trimmedText opts.currentText ≠ trimmedText opts.lastClipboard
    · simp only [computeInitialState, if_pos hc1, if_pos hmid]
      rw [updateHistory_strArr _ _ _ hq hcur,
        updateHistory_strArr _ _ _ (updateHistoryL_clean _ _ _ hq hcur) hnew]
      exact ⟨hnew, hnew, hnew,
        updateHistoryL_clean _ _ _ (updateHistoryL_clean _ _ _ hq hcur) hnew,
        fun h => absurd h hun⟩
    · simp only [computeInitialState, if_pos hc1, if_neg hmid]
      rw [updateHistory_strArr _ _ _ hq hnew]
      exact ⟨hnew, hnew, hnew, updateHistoryL_clean _ _ _ hq hnew, fun h => absurd h hun⟩
  · by_cases hc2 : trimmedText opts.currentText ≠ ""
    · simp only [computeInitialState, if_neg hc1, if_pos hc2]
      exact ⟨hcur, hlast, hcur, hq, fun _ => by constructor <;> trivial⟩
    · simp only [computeInitialState, if_neg hc1, if_neg hc2]
      have hfb : jsTrim ((coerceTextArray opts.history).getLastD "")
          = (coerceTextArray opts.history).getLastD "" := by
        have hm := List.getLastD_mem_cons (coerceTextArray opts.history) ""
        rcases List.mem_cons.mp hm with h | h
        · rw [h]
          rfl
        · exact (hq _ h).2
      exact ⟨hfb, hlast, hfb, hq, fun _ => by constructor <;> trivial⟩

/-- C10 witness: a concrete cold-open with untrimmed stored snapshot and
history — the result carries the trimmed snapshot and sanitized queue. -/
theorem computeInitialState_normalized_witness :
    (computeInitialState
      { lastClipboard := JSVal.str " z "
        currentText := JSVal.str ""
        newClipboard := JSVal.str ""
        history := strArr [" a ", "b"]
        limit := 10 }).newLastClipboard = trimmedText (JSVal.str " z ") ∧
    (computeInitialState
      { lastClipboard := JSVal.str " z "
        currentText := JSVal.str ""
        newClipboard := JSVal.str ""
        history := strArr [" a ", "b"]
        limit := 10 }).newHistory = coerceTextArray (strArr [" a ", "b"]) := by
  have h := computeInitialState_normalized
    { lastClipboard := JSVal.str " z "
      currentText := JSVal.str ""
      newClipboard := JSVal.str ""
      history := strArr [" a ", "b"]
      limit := 10 }
  exact h.2.2.2.2 (Or.inl (by decide))

/-! Helper lemmas about the serial task chain. -/

/-- The chain runs one event per enqueued task. -/
theorem serialTrace_length (c : Settled) (ts : List PTask) :
    (serialTrace c ts).length = ts.length := by
  induction ts generalizing c with
  | nil => rfl
  | cons t rest ih => simp [serialTrace, ih]

/-- The first event of a chain starts when the incoming chain promise
settled. -/
theorem serialTrace_head_start (c : Settled) (ts : List PTask) (e : TaskEvent)
    (h : (serialTrace c ts).head? = some e) : e.start = c.time := by
  cases ts with
  | nil => simp [serialTrace] at h
  | cons t rest =>
      simp only [serialTrace, List.head?_cons, Option.some.injEq] at h
      rw [← h]

/-- Each task starts exactly when the previous task's promise settled,
whatever that task's outcome was. -/
theorem serialTrace_chain (c : Settled) (ts : List PTask) :
    List.Chain' (fun a b => b.start = a.settled.time) (serialTrace c ts) := by
  induction ts generalizing c with
  | nil => simp [serialTrace]
  | cons t rest ih =>
      simp only [serialTrace]
      rw [List.chain'_cons']
      refine ⟨fun e he => ?_, ih (chainStep c t)⟩
      rw [serialTrace_head_start (chainStep c t) rest e he]

/-- Every task settles with its own outcome: rejected exactly when it
fails, independent of what earlier tasks did. -/
theorem serialTrace_outcomes (c : Settled) (ts : List PTask) :
    (serialTrace c ts).map (fun e => e.settled.outcome)
      = ts.map (fun t => if t.fails then TOutcome.err else TOutcome.ok) := by
  induction ts generalizing c with
  | nil => rfl
  | cons t rest ih => simp [serialTrace, chainStep, runTask, ih]

/-- The timing trace depends only on the incoming settle time and the
task latencies, never on which tasks fail. -/
theorem serialTrace_times (c c2 : Settled) (h : c.time = c2.time)
    (ts ts2 : List PTask) (hl : ts.map PTask.latency = ts2.map PTask.latency) :
    (serialTrace c ts).map (fun e => (e.start, e.settled.time))
      = (serialTrace c2 ts2).map (fun e => (e.start, e.settled.time)) := by
  induction ts generalizing c c2 ts2 with
  | nil =>
      cases ts2 with
      | nil => rfl
      | cons t2 rest2 => simp at hl
  | cons t rest ih =>
      cases ts2 with
      | nil => simp at hl
      | cons t2 rest2 =>
          simp only [List.map_cons, List.cons.injEq] at hl
          obtain ⟨hlat, hrest⟩ := hl
          simp only [serialTrace, List.map_cons, chainStep, runTask]
          rw [h, hlat]
          congr 1
          exact ih
            { time := c2.time + t2.latency, outcome := if t.fails then TOutcome.err else TOutcome.ok }
            { time := c2.time + t2.latency, outcome := if t2.fails then TOutcome.err else TOutcome.ok }
            rfl rest2 hrest

/-- C3: the serial queue executes every enqueued task, in exactly the
submission order — each task starts only when its predecessor's promise
settled, for every latency assignment — and a failed task is passed over
exactly like a succeeded one: each task settles with its own outcome and
the timing of the whole chain is unchanged if failing tasks are swapped
for succeeding ones of equal latency. -/
theorem createSerialQueue_ordered (ts : List PTask) :
    (createSerialQueue ts).length = ts.length ∧
    List.Chain' (fun a b => b.start = a.settled.time) (createSerialQueue ts) ∧
    (createSerialQueue ts).map (fun e => e.settled.outcome)
      = ts.map (fun t => if t.fails then TOutcome.err else TOutcome.ok) ∧
    (∀ ts2 : List PTask, ts.map PTask.latency = ts2.map PTask.latency →
      (createSerialQueue ts).map (fun e => (e.start, e.settled.time))
        = (createSerialQueue ts2).map (fun e => (e.start, e.settled.time))) := by
  refine ⟨serialTrace_length _ ts, serialTrace_chain _ ts, serialTrace_outcomes _ ts,
    fun ts2 hl => serialTrace_times _ _ rfl ts ts2 hl⟩

/-- C3 witness: the spec's three-task scenario (latencies 30, 10, 0 with
the middle task failing) runs all three tasks in enqueue order, and its
timing equals that of the same latencies with no failures. -/
theorem createSerialQueue_ordered_witness :
    (createSerialQueue [⟨30, false⟩, ⟨10, true⟩, ⟨0, false⟩]).length
      = ([⟨30, false⟩, ⟨10, true⟩, ⟨0, false⟩] : List PTask).length ∧
    (createSerialQueue [⟨30, false⟩, ⟨10, true⟩, ⟨0, false⟩]).map
        (fun e => (e.start, e.settled.time))
      = (createSerialQueue [⟨30, false⟩, ⟨10, false⟩, ⟨0, false⟩]).map
        (fun e => (e.start, e.settled.time)) := by
  refine ⟨(createSerialQueue_ordered _).1, ?_⟩
  exact (createSerialQueue_ordered [⟨30, false⟩, ⟨10, true⟩, ⟨0, false⟩]).2.2.2
    [⟨30, false⟩, ⟨10, false⟩, ⟨0, false⟩] (by decide)

/-! Helper lemmas about the quota-aware persist loop. -/

/-- The persist loop makes at most one attempt per queue element (one
attempt for the empty queue): every quota retry drops the head, so the
candidate strictly shrinks. -/
theorem persistLoop_attempts_le (store : List String → WriteOutcome)
    (fr : Option (List String)) (q : List String) (ev : Bool) :
    (persistLoop store fr q ev).attempts ≤ max 1 q.length := by
  induction q generalizing ev with
  | nil =>
      cases h : store [] <;> simp [persistLoop, h]
  | cons x q ih =>
      cases q with
      | nil => cases h : store [x] <;> simp [persistLoop, h]
      | cons y rest =>
          cases h : store (x :: y :: rest) with
          | success => simp [persistLoop, h]
          | otherError => simp [persistLoop, h]
          | quotaError =>
              have hrec := ih true
              simp only [persistLoop, h]
              simp only [List.length_cons] at hrec ⊢
              omega

/-- C5 counterexample: persisting an empty history against a store that
reports a quota error still performs one write attempt, exceeding the
claimed bound of zero (the initial queue length). -/
theorem saveHistory_attempts_counterexample :
    (saveHistory (fun _ => WriteOutcome.quotaError) (strArr [])).attempts = 1 ∧
    (coerceTextArray (strArr [])).length = 0 := by
  decide

/-- C5 amended: the eviction loop always terminates — each
quota-classified retry drops the head of the candidate queue, so the
number of `storageSet` attempts of any run is at most the candidate
queue's length, except that an empty queue still costs the one initial
attempt: the bound is `max 1 length`, both for the bare loop and for
`saveHistory` relative to its sanitized input. -/
theorem persist_attempts_bounded :
    (∀ (store : List String → WriteOutcome) (fr : Option (List String))
      (q : List String) (ev : Bool),
      (persistLoop store fr q ev).attempts ≤ max 1 q.length) ∧
    (∀ (store : List String → WriteOutcome) (history : JSVal),
      (saveHistory store history).attempts ≤ max 1 (coerceTextArray history).length) := by
  refine ⟨persistLoop_attempts_le, fun store history => ?_⟩
  show (persistLoop store none
    (if (coerceTextArray history).length > HISTORY_LIMIT then
      (coerceTextArray history).drop ((coerceTextArray history).length - HISTORY_LIMIT)
    else coerceTextArray history) false).attempts ≤ max 1 (coerceTextArray history).length
  by_cases hl : (coerceTextArray history).length > HISTORY_LIMIT
  · rw [if_pos hl]
    have hb := persistLoop_attempts_le store none
      ((coerceTextArray history).drop ((coerceTextArray history).length - HISTORY_LIMIT)) false
    rw [List.length_drop] at hb
    omega
  · rw [if_neg hl]
    exact persistLoop_attempts_le store none (coerceTextArray history) false

/-- C4 counterexample: `saveHistory` against a store that fails with a
non-capacity error shows the error status but returns `undefined`
(`none`), not the pre-attempt or last-persisted queue. -/
theorem saveHistory_failure_counterexample :
    (saveHistory (fun _ => WriteOutcome.otherError) (strArr ["a"])).returned = none ∧
    (saveHistory (fun _ => WriteOutcome.otherError) (strArr ["a"])).errorShown = true ∧
    (saveHistory (fun _ => WriteOutcome.otherError) (strArr ["a"])).attempts = 1 := by
  decide

/-- C4 amended: on a non-capacity failure, or a capacity failure with at
most one element left, the loop stops retrying after that attempt and
shows the user-visible error status; `saveHistory` then returns no value
(JS `undefined`), while `pushToHistory` returns the pre-attempt queue it
read before writing. -/
theorem saveHistory_failure_spec :
    (∀ (store : List String → WriteOutcome) (fr : Option (List String))
      (q : List String) (ev : Bool),
      store q = WriteOutcome.otherError ∨
        (store q = WriteOutcome.quotaError ∧ q.length ≤ 1) →
      persistLoop store fr q ev =
        { stored := none, returned := fr, errorShown := true, evictNotice := false,
          attempts := 1 }) ∧
    (∀ (store : List String → WriteOutcome) (history : JSVal),
      (∀ q, store q = WriteOutcome.otherError) →
      saveHistory store history =
        { stored := none, returned := none, errorShown := true, evictNotice := false,
          attempts := 1 }) ∧
    (∀ (store : List String → WriteOutcome) (text : JSVal) (existing : List String),
      (∀ q, store q = WriteOutcome.otherError) → trimmedText text ≠ "" →
      pushToHistory store text existing =
        { stored := none, returned := some existing, errorShown := true,
          evictNotice := false, attempts := 1 }) := by
  have habort : ∀ (store : List String → WriteOutcome) (fr : Option (List String))
      (q : List String) (ev : Bool),
      store q = WriteOutcome.otherError ∨
        (store q = WriteOutcome.quotaError ∧ q.length ≤ 1) →
      persistLoop store fr q ev =
        { stored := none, returned := fr, errorShown := true, evictNotice := false,
          attempts := 1 } := by
    intro store fr q ev h
    rcases h with h | ⟨h, hlen⟩
    · cases q with
      | nil => simp [persistLoop, h]
      | cons x rest =>
          cases rest with
          | nil => simp [persistLoop, h]
          | cons y more => simp [persistLoop, h]
    · cases q with
      | nil => simp [persistLoop, h]
      | cons x rest =>
          cases rest with
          | nil => simp [persistLoop, h]
          | cons y more =>
              simp only [List.length_cons] at hlen
              omega
  refine ⟨habort, fun store history hst => ?_, fun store text existing hst hne => ?_⟩
  · exact habort store none _ false (Or.inl (hst _))
  · show (if trimmedText text = "" then _ else _) = _
    rw [if_neg hne]
    exact habort store (some existing) _ false (Or.inl (hst _))

/-- C4 witness: a concrete non-capacity failure for all three forms. -/
theorem saveHistory_failure_spec_witness :
    persistLoop (fun _ => WriteOutcome.otherError) (some ["a"]) ["b"] false =
      { stored := none, returned := some ["a"], errorShown := true, evictNotice := false,
        attempts := 1 } ∧
    saveHistory (fun _ => WriteOutcome.otherError) (strArr ["b"]) =
      { stored := none, returned := none, errorShown := true, evictNotice := false,
        attempts := 1 } ∧
    pushToHistory (fun _ => WriteOutcome.otherError) (JSVal.str "b") ["a"] =
      { stored := none, returned := some ["a"], errorShown := true, evictNotice := false,
        attempts := 1 } :=
  ⟨saveHistory_failure_spec.1 _ _ _ _ (Or.inl rfl),
   saveHistory_failure_spec.2.1 _ _ (fun _ => rfl),
   saveHistory_failure_spec.2.2 _ _ _ (fun _ => rfl) (by decide)⟩

/-- C8 counterexample: the number 42 is a non-string value, yet
`trimmedText` converts it to `"42"`, not to the empty string —
`(text ?? "").toString()` stringifies every non-nullish value. -/
theorem trimmedText_nonstring_counterexample :
    trimmedText (JSVal.num 42) = "42" ∧ trimmedText (JSVal.num 42) ≠ "" := by
  decide

/-- C8 amended: `trimmedText` converts `null` and `undefined` to the
empty string, coerces every other value to its string form and trims it;
on strings it removes exactly the leading and trailing whitespace (the
result is an infix of the input delimited by whitespace-only margins and
neither starts nor ends with whitespace). It is a total function. -/
theorem trimmedText_spec :
    trimmedText JSVal.null = "" ∧
    trimmedText JSVal.undefined = "" ∧
    (∀ v : JSVal, v ≠ JSVal.null → v ≠ JSVal.undefined →
      trimmedText v = jsTrim (jsToString v)) ∧
    (∀ s : String, trimmedText (JSVal.str s) = jsTrim s ∧
      (∃ front back : List Char,
        s.data = front ++ (trimmedText (JSVal.str s)).data ++ back ∧
        (∀ c ∈ front, isJsWhitespace c = true) ∧
        (∀ c ∈ back, isJsWhitespace c = true)) ∧
      (∀ c : Char, (trimmedText (JSVal.str s)).data.head? = some c →
        isJsWhitespace c = false) ∧
      (∀ c : Char, (trimmedText (JSVal.str s)).data.getLast? = some c →
        isJsWhitespace c = false)) := by
  refine ⟨by decide, by decide, fun v h1 h2 => ?_, fun s => ?_⟩
  · cases v with
    | null => exact absurd rfl h1
    | undefined => exact absurd rfl h2
    | str s => rfl
    | num n => rfl
    | bool b => rfl
    | arr xs => rfl
  · exact ⟨rfl, trimChars_decomp s.data,
      fun c hc => trimChars_head s.data c hc,
      fun c hc => trimChars_getLast s.data c hc⟩

/-- C8 witness: the amended statement at a boolean and at a padded
string. -/
theorem trimmedText_spec_witness :
    trimmedText (JSVal.bool true) = jsTrim (jsToString (JSVal.bool true)) ∧
    trimmedText (JSVal.str "  item1 ") = jsTrim "  item1 " :=
  ⟨trimmedText_spec.2.2.1 (JSVal.bool true) (fun h => nomatch h) (fun h => nomatch h),
   (trimmedText_spec.2.2.2 "  item1 ").1⟩
